import Mathlib

/-!
Shallow embedding of `internal/shared/netutil/ipaccess.go` (package
`netutil`), together with the parts of the Go standard library that it
calls: `net.ParseIP` (which since Go 1.18 parses via `net/netip`),
`net.ParseCIDR`, `net.IP.To4`, `net.IP.Mask`, `net.CIDRMask`,
`net.IPNet.Contains`, `net.SplitHostPort` and `strings.TrimSpace`.
Go byte slices are modelled as `List Nat` with every element below 256,
strings as `List Char` (obtained from `String.data`).
-/

namespace Netutil

/-- A Go `net.IP`: a byte slice, 4 or 16 bytes for well-formed addresses. -/
abbrev IP := List Nat

/-- Go `net.IPNet`: network number and mask, as built by `net.ParseCIDR`. -/
structure IPNet where
  ip : IP
  mask : List Nat
deriving DecidableEq, Repr

/-- ASCII decimal digit test (Go `'0' <= c && c <= '9'`, code points 48-57). -/
def isDigit (c : Char) : Bool := 48 ≤ c.toNat && c.toNat ≤ 57

/-- Value of a hexadecimal digit character, as accepted by Go
`netip.parseIPv6` (`0-9`, `a-f`, `A-F`, by code point). -/
def hexDigit (c : Char) : Option Nat :=
  let n := c.toNat
  if 48 ≤ n && n ≤ 57 then some (n - 48)
  else if 97 ≤ n && n ≤ 102 then some (n - 87)
  else if 65 ≤ n && n ≤ 70 then some (n - 55)
  else none

/-- Go `netip.parseIPv4Fields`, parsing dotted-decimal fields out of the whole
remaining string.  `val` and `digLen` track the current field, `fields` the
completed fields (Go's `pos` is `fields.length`).  The Go loop's checks are
mirrored: a second digit after a leading zero is an error, a field above 255
is an error, a dot may not start the string, end it or follow another dot,
at most four fields fit, and at least four fields must result. -/
def parseIPv4Fields : List Char → Nat → Nat → List Nat → Option (List Nat)
  | [], val, _, fields =>
    if fields.length < 3 then none else some (fields ++ [val])
  | c :: rest, val, digLen, fields =>
    if isDigit c then
      if digLen = 1 && val = 0 then none
      else
        let val := val * 10 + (c.toNat - 48)
        if 255 < val then none
        else parseIPv4Fields rest val (digLen + 1) fields
    else if c = '.' then
      if digLen = 0 || rest = [] then none
      else if fields.length = 3 then none
      else parseIPv4Fields rest 0 0 (fields ++ [val])
    else none

/-- The hex-group scan of Go `netip.parseIPv6`: reads leading hex digits,
returning the accumulated value, the number of digits read and the rest of
the string; `none` when a fifth hex digit occurs. -/
def scanHexGroup : List Char → Nat → Nat → Option (Nat × Nat × List Char)
  | [], acc, off => some (acc, off, [])
  | c :: rest, acc, off =>
    match hexDigit c with
    | none => some (acc, off, c :: rest)
    | some d => if 3 < off then none else scanHexGroup rest (acc * 16 + d) (off + 1)

/-- End-of-loop processing of Go `netip.parseIPv6`: trailing characters are
an error; a short address needs an ellipsis, which expands to zero bytes in
its place; a full 16-byte address must not also contain an ellipsis. -/
def v6finish (acc : List Nat) (ell : Option Nat) (rem : List Char) : Option IP :=
  if rem ≠ [] then none
  else if acc.length < 16 then
    match ell with
    | none => none
    | some e => some (acc.take e ++ List.replicate (16 - acc.length) 0 ++ acc.drop e)
  else match ell with
    | some _ => none
    | none => some acc

/-- The main loop of Go `netip.parseIPv6`.  `acc` holds the bytes parsed so
far (Go's `ip[:i]`), `ell` the ellipsis position.  The Go loop runs while
`i < 16` and every iteration appends two bytes, so eight iterations always
suffice; the `fuel` argument makes that recursion structural and is never
exhausted when the loop is entered with `fuel = 8` and `acc = []`. -/
def parseIPv6Loop : Nat → List Char → List Nat → Option Nat → Option IP
  | 0, rem, acc, ell => v6finish acc ell rem
  | fuel + 1, rem, acc, ell =>
    if 16 ≤ acc.length then v6finish acc ell rem
    else
      match scanHexGroup rem 0 0 with
      | none => none
      | some (val, off, rest) =>
        if off = 0 then none
        else if rest.head? = some '.' then
          -- an embedded IPv4 tail, parsed from the whole remainder `rem`
          if ell = none && acc.length ≠ 12 then none
          else if 16 < acc.length + 4 then none
          else
            match parseIPv4Fields rem 0 0 [] with
            | none => none
            | some fields => v6finish (acc ++ fields) ell []
        else
          let acc := acc ++ [val / 256, val % 256]
          match rest with
          | [] => v6finish acc ell []
          | ':' :: rest =>
            match rest with
            | [] => none
            | ':' :: rest =>
              if ell.isSome then none
              else if rest = [] then v6finish acc (some acc.length) []
              else parseIPv6Loop fuel rest acc (some acc.length)
            | _ => parseIPv6Loop fuel rest acc ell
          | _ => none

/-- Go `netip.parseIPv6`, as its results are observable through `net.ParseIP`
and `net.ParseCIDR`: those callers reject every address carrying a zone and
`parseIPv6` rejects an empty zone, so any percent sign makes the parse fail.
A leading `::` sets the ellipsis before the main loop; `::` alone is the
unspecified address. -/
def parseIPv6 (s : List Char) : Option IP :=
  if s.contains '%' then none
  else
    match s with
    | ':' :: ':' :: rest =>
      if rest = [] then some (List.replicate 16 0)
      else parseIPv6Loop 8 rest [] (some 0)
    | _ => parseIPv6Loop 8 s [] none

/-- The 16-byte form of a 4-byte IPv4 address (Go `v4InV6Prefix`, as used by
`netip.Addr.As16` and `net.IPv4`). -/
def v4mapped (fields : List Nat) : IP :=
  List.replicate 10 0 ++ [255, 255] ++ fields

/-- The dispatch scan of Go `netip.ParseAddr`: the first `.`, `:` or `%`
decides the address family, a leading `%` or the absence of all three is an
error. -/
def firstSpecial : List Char → Option Char
  | [] => none
  | c :: rest => if c = '.' || c = ':' || c = '%' then some c else firstSpecial rest

/-- Go `net.ParseIP` on a char list: `netip.ParseAddr`'s dispatch, with an
IPv4 parse widened to its 16-byte v4-in-v6 form (net.ParseIP returns
`As16`), and zones rejected. -/
def goParseIP (s : List Char) : Option IP :=
  match firstSpecial s with
  | some '.' => (parseIPv4Fields s 0 0 []).map v4mapped
  | some ':' => parseIPv6 s
  | _ => none

/-- Go `net.ParseIP`. -/
def ParseIP (s : String) : Option IP := goParseIP s.data

/-- Go `net.dtoi`: leading decimal digits with an overflow cutoff at
0xFFFFFF, returning the value, the number of characters consumed and a
success flag. -/
def dtoiLoop : List Char → Nat → Nat → Nat × Nat × Bool
  | [], n, i => (n, i, true)
  | c :: rest, n, i =>
    if isDigit c then
      let n := n * 10 + (c.toNat - 48)
      if 16777215 ≤ n then (16777215, i + 1, false)
      else dtoiLoop rest n (i + 1)
    else (n, i, true)

/-- Go `net.dtoi` (zero digits consumed is a failure). -/
def dtoi (s : List Char) : Nat × Nat × Bool :=
  let r := dtoiLoop s 0 0
  if r.2.1 = 0 then (0, 0, false) else r

/-- Go `net.CIDRMask`'s byte loop: `ones` leading one bits over `l` bytes. -/
def cidrMaskLoop : Nat → Nat → List Nat
  | 0, _ => []
  | l + 1, n =>
    if 8 ≤ n then 255 :: cidrMaskLoop l (n - 8)
    else (255 - 255 / 2 ^ n) :: cidrMaskLoop l 0

/-- Go `net.CIDRMask`. -/
def cidrMask (ones bits : Nat) : List Nat :=
  if (bits = 32 || bits = 128) && ones ≤ bits then cidrMaskLoop (bits / 8) ones else []

/-- Go `net.IP.To4`. -/
def to4 (ip : IP) : Option (List Nat) :=
  if ip.length = 4 then some ip
  else if ip.length = 16 && ip.take 12 = List.replicate 10 0 ++ [255, 255] then
    some (ip.drop 12)
  else none

/-- Go `net.IP.Mask`: a 16-byte mask whose top 12 bytes are all ones is
shortened against a 4-byte address, a v4-in-v6 address is shortened against
a 4-byte mask, then the bytes are masked pairwise (`[]`, Go's `nil`, on a
length mismatch). -/
def maskBytes (ip : IP) (mask : List Nat) : IP :=
  let mask :=
    if mask.length = 16 && ip.length = 4 && (mask.take 12).all (· == 255) then mask.drop 12
    else mask
  let ip :=
    if mask.length = 4 && ip.length = 16 && ip.take 12 = List.replicate 10 0 ++ [255, 255] then
      ip.drop 12
    else ip
  if ip.length = mask.length then List.zipWith (fun a b => a &&& b) ip mask else []

/-- Whether Go `net.parseIPv4` succeeds: `netip.ParseAddr` yields a 4-byte
(`Is4`) address exactly when the dispatch picked the dotted form and the
field parse consumed the whole string. -/
def goParseDotted (s : List Char) : Option (List Nat) :=
  match firstSpecial s with
  | some '.' => parseIPv4Fields s 0 0 []
  | _ => none

/-- Split a char list at the first occurrence of `c` (Go `byteIndex` plus
slicing). -/
def splitAtFirst (c : Char) : List Char → Option (List Char × List Char)
  | [] => none
  | x :: rest =>
    if x = c then some ([], rest)
    else
      match splitAtFirst c rest with
      | none => none
      | some (a, b) => some (x :: a, b)

/-- Go `net.ParseCIDR`, returning the `*net.IPNet` component: split at the
first slash, parse the address part (the dotted IPv4 form giving a 32-bit
prefix space, otherwise any zoneless address giving a 128-bit one), parse
the prefix length as a decimal that consumes the whole mask part and is at
most the bit length, then store the masked network with its mask. -/
def goParseCIDR (s : List Char) : Option IPNet :=
  match splitAtFirst '/' s with
  | none => none
  | some (addr, maskTxt) =>
    let parsed : Option (IP × Nat) :=
      match goParseDotted addr with
      | some fields => some (v4mapped fields, 4)
      | none =>
        match goParseIP addr with
        | some bytes => some (bytes, 16)
        | none => none
    match parsed with
    | none => none
    | some (ip, iplen) =>
      let r := dtoi maskTxt
      if r.2.2 = false || r.2.1 ≠ maskTxt.length || 8 * iplen < r.1 then none
      else
        let m := cidrMask r.1 (8 * iplen)
        some ⟨maskBytes ip m, m⟩

/-- Go `networkNumberAndMask`'s mask switch: a 4-byte mask requires a 4-byte
network number, a 16-byte mask is shortened to its low 4 bytes against a
4-byte network number, anything else is Go's `nil, nil`, here `([], [])`. -/
def maskSwitch (ip m : List Nat) : List Nat × List Nat :=
  if m.length = 4 then (if ip.length ≠ 4 then ([], []) else (ip, m))
  else if m.length = 16 then (if ip.length = 4 then (ip, m.drop 12) else (ip, m))
  else ([], [])

/-- Go `networkNumberAndMask`: the network number through `To4` when
possible, otherwise kept 16-byte (anything else is `nil, nil`). -/
def networkNumberAndMask (n : IPNet) : List Nat × List Nat :=
  match to4 n.ip with
  | some ip4 => maskSwitch ip4 n.mask
  | none => if n.ip.length ≠ 16 then ([], []) else maskSwitch n.ip n.mask

/-- Go `net.IPNet.Contains`: the queried address is reduced through `To4`
when possible, the lengths must agree, and the masked bytes must agree. -/
def Contains (n : IPNet) (addr : IP) : Bool :=
  let p := networkNumberAndMask n
  let ip :=
    match to4 addr with
    | some x => x
    | none => addr
  ip.length == p.1.length &&
    (List.range ip.length).all fun i =>
      (p.1.getD i 0) &&& (p.2.getD i 0) == (ip.getD i 0) &&& (p.2.getD i 0)

/-- Go `unicode.IsSpace` (the White_Space property). -/
def isSpaceChar (c : Char) : Bool :=
  c == ' ' || c == '\t' || c == '\n' || c.toNat == 11 || c.toNat == 12 ||
  c == '\r' || c.toNat == 0x85 || c.toNat == 0xA0 || c.toNat == 0x1680 ||
  (0x2000 ≤ c.toNat && c.toNat ≤ 0x200A) || c.toNat == 0x2028 ||
  c.toNat == 0x2029 || c.toNat == 0x202F || c.toNat == 0x205F || c.toNat == 0x3000

/-- Go `strings.TrimSpace`. -/
def trimSpace (s : List Char) : List Char :=
  ((s.dropWhile isSpaceChar).reverse.dropWhile isSpaceChar).reverse

/-- The `IPAccessChecker` struct of `ipaccess.go`. -/
structure IPAccessChecker where
  allowNets : List IPNet
  denyNets : List IPNet
  hasAllow : Bool
  hasDeny : Bool
deriving DecidableEq, Repr

/-- The per-entry body of `NewIPAccessChecker`'s two loops, which is
identical for the allow and the deny list: trim the entry, skip it when
empty, widen a bare address (no slash, parses as an IP) with `/32` when it
has a 4-byte form (`To4` non-nil) and `/128` otherwise, then `ParseCIDR`,
dropping the entry on failure. -/
def entryToNet (entry : String) : Option IPNet :=
  let s := trimSpace entry.data
  if s = [] then none
  else
    let s :=
      if s.contains '/' then s
      else
        match goParseIP s with
        | some ip =>
          if (to4 ip).isSome then s ++ ['/', '3', '2'] else s ++ ['/', '1', '2', '8']
        | none => s
    goParseCIDR s

/-- `NewIPAccessChecker`: the accumulation loops become `filterMap`, and each
configured flag records whether its list of parsed rules is non-empty. -/
def NewIPAccessChecker (allowCIDRs denyIPs : List String) : IPAccessChecker :=
  let allowNets := allowCIDRs.filterMap entryToNet
  let denyNets := denyIPs.filterMap entryToNet
  { allowNets := allowNets, denyNets := denyNets,
    hasAllow := decide (0 < allowNets.length), hasDeny := decide (0 < denyNets.length) }

/-- `IsAllowed`, with the Go nil receiver modelled as `none`.  The deny and
allow loops become `List.any`. -/
def IsAllowed (c : Option IPAccessChecker) (ipStr : String) : Bool :=
  match c with
  | none => true
  | some c =>
    if !c.hasAllow && !c.hasDeny then true
    else
      match ParseIP ipStr with
      | none => false
      | some ip =>
        if c.hasDeny && c.denyNets.any (fun n => Contains n ip) then false
        else if c.hasAllow then c.allowNets.any (fun n => Contains n ip)
        else true

/-- `HasRules`, with the Go nil receiver modelled as `none`. -/
def HasRules (c : Option IPAccessChecker) : Bool :=
  match c with
  | none => false
  | some c => c.hasAllow || c.hasDeny

/-- Index of the last colon (Go `last(hostport, ':')`), as an option. -/
def lastColon : List Char → Option Nat
  | [] => none
  | c :: rest =>
    match lastColon rest with
    | some j => some (j + 1)
    | none => if c = ':' then some 0 else none

/-- First index of a character (Go `byteIndex`), as an option. -/
def idxOf (c : Char) : List Char → Option Nat
  | [] => none
  | x :: rest =>
    if x = c then some 0
    else
      match idxOf c rest with
      | some j => some (j + 1)
      | none => none

/-- Go `net.SplitHostPort`; every Go error path is `none`.  The bracketed
form requires the last colon right after the closing bracket, an unbracketed
host may not itself contain a colon, and stray brackets are rejected. -/
def SplitHostPort (s : List Char) : Option (List Char × List Char) :=
  match lastColon s with
  | none => none
  | some i =>
    if s.head? = some '[' then
      match idxOf ']' s with
      | none => none
      | some e =>
        if e + 1 = s.length then none
        else if e + 1 = i then
          if (s.drop 1).contains '[' then none
          else if (s.drop (e + 1)).contains ']' then none
          else some ((s.drop 1).take (e - 1), s.drop (i + 1))
        else none
    else
      if (s.take i).contains ':' then none
      else if s.contains '[' then none
      else if s.contains ']' then none
      else some (s.take i, s.drop (i + 1))

/-- `ExtractIP`. -/
def ExtractIP (remoteAddr : String) : String :=
  match SplitHostPort remoteAddr.data with
  | some (host, _) => ⟨host⟩
  | none => if (ParseIP remoteAddr).isSome then remoteAddr else ""

/-! ### Length facts about the parsers -/

theorem parseIPv4Fields_length :
    ∀ (s : List Char) (val digLen : Nat) (fields r : List Nat),
      fields.length ≤ 3 → parseIPv4Fields s val digLen fields = some r → r.length = 4 := by
  intro s
  induction s with
  | nil =>
    intro val digLen fields r hle h
    simp only [parseIPv4Fields] at h
    split at h
    · exact absurd h (by simp)
    · rename_i h3
      cases h
      simp only [List.length_append, List.length_singleton]
      omega
  | cons c rest ih =>
    intro val digLen fields r hle h
    simp only [parseIPv4Fields] at h
    split at h
    · split at h
      · exact absurd h (by simp)
      · split at h
        · exact absurd h (by simp)
        · exact ih _ _ _ _ hle h
    · split at h
      · split at h
        · exact absurd h (by simp)
        · split at h
          · exact absurd h (by simp)
          · rename_i h3
            refine ih _ _ _ _ ?_ h
            simp only [List.length_append, List.length_singleton]
            omega
      · exact absurd h (by simp)

theorem v6finish_length (acc : List Nat) (ell : Option Nat) (rem : List Char) (r : IP)
    (hlen : acc.length ≤ 16) (hell : ∀ e, ell = some e → e ≤ acc.length)
    (h : v6finish acc ell rem = some r) : r.length = 16 := by
  simp only [v6finish] at h
  split at h
  · exact absurd h (by simp)
  · split at h
    · split at h
      · exact absurd h (by simp)
      · rename_i hlt e
        have he : e ≤ acc.length := hell e rfl
        cases h
        simp only [List.length_append, List.length_take, List.length_replicate,
          List.length_drop]
        omega
    · split at h
      · exact absurd h (by simp)
      · cases h
        omega

theorem parseIPv6Loop_length :
    ∀ (fuel : Nat) (rem : List Char) (acc : List Nat) (ell : Option Nat) (r : IP),
      acc.length ≤ 16 → acc.length % 2 = 0 → (∀ e, ell = some e → e ≤ acc.length) →
      parseIPv6Loop fuel rem acc ell = some r → r.length = 16 := by
  intro fuel
  induction fuel with
  | zero =>
    intro rem acc ell r hlen _ hell h
    exact v6finish_length acc ell rem r hlen hell h
  | succ fuel ih =>
    intro rem acc ell r hlen heven hell h
    simp only [parseIPv6Loop] at h
    split at h
    · exact v6finish_length acc ell rem r hlen hell h
    · rename_i h16
      split at h
      · exact absurd h (by simp)
      · rename_i val off rest heq
        split at h
        · exact absurd h (by simp)
        · split at h
          · -- embedded IPv4 tail
            split at h
            · exact absurd h (by simp)
            · split at h
              · exact absurd h (by simp)
              · rename_i hroom
                split at h
                · exact absurd h (by simp)
                · rename_i fields hfields
                  refine v6finish_length _ ell [] r ?_ ?_ h
                  · have h4 : fields.length = 4 :=
                      parseIPv4Fields_length rem 0 0 [] fields (by simp) hfields
                    simp only [List.length_append, h4]
                    omega
                  · intro e hee
                    have := hell e hee
                    simp only [List.length_append]
                    omega
          · -- a 16-bit hex group was appended
            have hlen2 : (acc ++ [val / 256, val % 256]).length ≤ 16 := by
              simp only [List.length_append, List.length_cons, List.length_nil]
              omega
            have heven2 : (acc ++ [val / 256, val % 256]).length % 2 = 0 := by
              simp only [List.length_append, List.length_cons, List.length_nil]
              omega
            have hell2 : ∀ e, ell = some e → e ≤ (acc ++ [val / 256, val % 256]).length := by
              intro e hee
              have := hell e hee
              simp only [List.length_append]
              omega
            split at h
            · exact v6finish_length _ ell [] r hlen2 hell2 h
            · split at h
              · exact absurd h (by simp)
              · split at h
                · exact absurd h (by simp)
                · split at h
                  · exact v6finish_length _ _ [] r hlen2 (by intro e hee; cases hee; omega) h
                  · exact ih _ _ _ r hlen2 heven2 (by intro e hee; cases hee; omega) h
              · exact ih _ _ _ r hlen2 heven2 hell2 h
            · exact absurd h (by simp)

theorem parseIPv6_length (s : List Char) (ip : IP) (h : parseIPv6 s = some ip) :
    ip.length = 16 := by
  simp only [parseIPv6] at h
  split at h
  · exact absurd h (by simp)
  · split at h
    · split at h
      · cases h
        simp
      · exact parseIPv6Loop_length 8 _ [] (some 0) ip (by simp) (by simp)
          (by intro e hee; cases hee; simp) h
    · exact parseIPv6Loop_length 8 _ [] none ip (by simp) (by simp) (by simp) h

theorem goParseIP_length (s : List Char) (ip : IP) (h : goParseIP s = some ip) :
    ip.length = 16 := by
  simp only [goParseIP] at h
  split at h
  · rename_i heq
    simp only [Option.map_eq_some'] at h
    obtain ⟨fields, hf, hip⟩ := h
    have h4 : fields.length = 4 := parseIPv4Fields_length s 0 0 [] fields (by simp) hf
    subst hip
    simp [v4mapped, h4]
  · exact parseIPv6_length s ip h
  · exact absurd h (by simp)

theorem ParseIP_length (s : String) (ip : IP) (h : ParseIP s = some ip) :
    ip.length = 16 :=
  goParseIP_length s.data ip h

theorem to4_some_length (ip : IP) (x : List Nat) (h : to4 ip = some x) : x.length = 4 := by
  simp only [to4] at h
  split at h
  · cases h
    assumption
  · split at h
    · rename_i hcond
      simp only [Bool.and_eq_true, decide_eq_true_eq] at hcond
      cases h
      simp only [List.length_drop]
      omega
    · exact absurd h (by simp)

/-! ### Structural facts about the checker -/

theorem allowNets_eq (a d : List String) :
    (NewIPAccessChecker a d).allowNets = a.filterMap entryToNet := rfl

theorem denyNets_eq (a d : List String) :
    (NewIPAccessChecker a d).denyNets = d.filterMap entryToNet := rfl

theorem hasAllow_iff (a d : List String) :
    (NewIPAccessChecker a d).hasAllow = true ↔ (NewIPAccessChecker a d).allowNets ≠ [] := by
  simp [NewIPAccessChecker, List.length_pos]

theorem hasDeny_iff (a d : List String) :
    (NewIPAccessChecker a d).hasDeny = true ↔ (NewIPAccessChecker a d).denyNets ≠ [] := by
  simp [NewIPAccessChecker, List.length_pos]

/-- C1: for every checker and every input string that parses as an IP
address, if the parsed address lies within at least one deny prefix then
`IsAllowed` returns false, regardless of the allow list: the deny test runs
before any allow test.  (A matching deny rule forces the deny list to be
configured, so the hypothesis on the deny list being configured is implied.) -/
theorem C1_deny_takes_precedence (a d : List String) (s : String) (ip : IP)
    (hp : ParseIP s = some ip)
    (hd : ((NewIPAccessChecker a d).denyNets.any fun n => Contains n ip) = true) :
    IsAllowed (some (NewIPAccessChecker a d)) s = false := by
  have hne : (NewIPAccessChecker a d).denyNets ≠ [] := by
    intro h
    rw [h] at hd
    simp at hd
  have hhd : (NewIPAccessChecker a d).hasDeny = true := (hasDeny_iff a d).mpr hne
  simp [IsAllowed, hp, hhd, hd]

/-- Witness for C1 at allow `10.0.0.0/8`, deny `10.1.2.3`, query `10.1.2.3`:
the query lies in both lists and is denied. -/
theorem C1_witness :
    IsAllowed (some (NewIPAccessChecker ["10.0.0.0/8"] ["10.1.2.3"])) "10.1.2.3" = false :=
  C1_deny_takes_precedence ["10.0.0.0/8"] ["10.1.2.3"] "10.1.2.3"
    (v4mapped [10, 1, 2, 3]) (by decide) (by decide)

/-- C2: with neither list configured `IsAllowed` accepts every string,
malformed or not; with at least one list configured it rejects every string
that does not parse as an IP address. -/
theorem C2_fail_open_and_reject_invalid (a d : List String) :
    ((NewIPAccessChecker a d).hasAllow = false → (NewIPAccessChecker a d).hasDeny = false →
      ∀ s : String, IsAllowed (some (NewIPAccessChecker a d)) s = true)
    ∧ (((NewIPAccessChecker a d).hasAllow = true ∨ (NewIPAccessChecker a d).hasDeny = true) →
      ∀ s : String, ParseIP s = none → IsAllowed (some (NewIPAccessChecker a d)) s = false) := by
  constructor
  · intro h1 h2 s
    simp [IsAllowed, h1, h2]
  · intro h s hs
    rcases h with h | h <;> simp [IsAllowed, h, hs]

/-- Witness for C2: no rules accept `garbage`; a configured allow list
rejects the empty string. -/
theorem C2_witness :
    IsAllowed (some (NewIPAccessChecker [] [])) "garbage" = true ∧
    IsAllowed (some (NewIPAccessChecker ["10.0.0.0/8"] [])) "" = false := by
  constructor
  · exact (C2_fail_open_and_reject_invalid [] []).1 (by decide) (by decide) "garbage"
  · exact (C2_fail_open_and_reject_invalid ["10.0.0.0/8"] []).2 (Or.inl (by decide)) "" (by decide)

/-- C3: for a parsed address matching no deny prefix, a configured allow
list makes `IsAllowed` return exactly whether some allow prefix contains the
address, and an unconfigured allow list makes it return true. -/
theorem C3_allow_list_semantics (a d : List String) (s : String) (ip : IP)
    (hp : ParseIP s = some ip)
    (hd : ((NewIPAccessChecker a d).denyNets.any fun n => Contains n ip) = false) :
    ((NewIPAccessChecker a d).hasAllow = true →
      IsAllowed (some (NewIPAccessChecker a d)) s
        = (NewIPAccessChecker a d).allowNets.any fun n => Contains n ip)
    ∧ ((NewIPAccessChecker a d).hasAllow = false →
      IsAllowed (some (NewIPAccessChecker a d)) s = true) := by
  constructor
  · intro ha
    simp [IsAllowed, hp, ha, hd]
  · intro ha
    cases hhd : (NewIPAccessChecker a d).hasDeny <;> simp [IsAllowed, hp, ha, hd, hhd]

/-- Witness for C3 at allow `10.0.0.0/8`, deny `10.1.2.3`, query `10.5.5.5`:
no deny match, so the decision equals the allow-list membership test (which
here is true). -/
theorem C3_witness :
    IsAllowed (some (NewIPAccessChecker ["10.0.0.0/8"] ["10.1.2.3"])) "10.5.5.5"
      = ((NewIPAccessChecker ["10.0.0.0/8"] ["10.1.2.3"]).allowNets.any
          fun n => Contains n (v4mapped [10, 5, 5, 5])) :=
  (C3_allow_list_semantics ["10.0.0.0/8"] ["10.1.2.3"] "10.5.5.5" (v4mapped [10, 5, 5, 5])
    (by decide) (by decide)).1 (by decide)

/-- C4 counterexample: the v4-mapped IPv6 address `::ffff:10.1.2.3` parses
to the 16-byte mapped form, the deny entry `10.0.0.0/8` builds a 4-byte
(IPv4) prefix, and the membership test coerces the mapped address through
`To4` so that it does match that IPv4 prefix — a checker with this deny
rule rejects the address, where the claim demands the deny prefix be
skipped (and hence the address be allowed, the allow list being absent). -/
theorem C4_counterexample :
    ParseIP "::ffff:10.1.2.3"
      = some [0, 0, 0, 0, 0, 0, 0, 0, 0, 0, 255, 255, 10, 1, 2, 3] ∧
    entryToNet "10.0.0.0/8" = some ⟨[10, 0, 0, 0], [255, 0, 0, 0]⟩ ∧
    Contains ⟨[10, 0, 0, 0], [255, 0, 0, 0]⟩
      [0, 0, 0, 0, 0, 0, 0, 0, 0, 0, 255, 255, 10, 1, 2, 3] = true ∧
    IsAllowed (some (NewIPAccessChecker [] ["10.0.0.0/8"])) "::ffff:10.1.2.3" = false := by
  refine ⟨by decide, by decide, by decide, by decide⟩

/-- C4 amended: the membership tests first reduce both the queried address
and the network number through Go `To4`, so cross-family matches are
impossible except through that v4-mapped coercion: a parsed address with no
4-byte form (a genuine IPv6 address) never matches a 4-byte (IPv4) prefix,
and an address with a 4-byte form (IPv4, or a v4-mapped IPv6 such as
`::ffff:10.1.2.3`) never matches a prefix whose network number has no
4-byte form; a v4-mapped IPv6 address, however, is coerced to IPv4 and can
match an IPv4 prefix. -/
theorem contains_false_of_len_ne (n : IPNet) (addr : IP)
    (h : (match to4 addr with | some x => x | none => addr).length
          ≠ (networkNumberAndMask n).1.length) :
    Contains n addr = false := by
  simp only [Contains, Bool.and_eq_false_eq_eq_false_or_eq_false]
  left
  simp only [beq_eq_false_iff_ne, ne_eq]
  exact h

theorem nnm_fst_length_of_ip4 (n : IPNet) (h : n.ip.length = 4) :
    (networkNumberAndMask n).1.length = 4 ∨ (networkNumberAndMask n).1.length = 0 := by
  have hto4 : to4 n.ip = some n.ip := by simp [to4, h]
  by_cases h1 : n.mask.length = 4
  · simp [networkNumberAndMask, hto4, maskSwitch, h1, h]
  · by_cases h2 : n.mask.length = 16
    · simp [networkNumberAndMask, hto4, maskSwitch, h1, h2, h]
    · simp [networkNumberAndMask, hto4, maskSwitch, h1, h2]

theorem nnm_fst_length_of_to4_none (n : IPNet) (h : to4 n.ip = none) :
    (networkNumberAndMask n).1.length = 16 ∨ (networkNumberAndMask n).1.length = 0 := by
  by_cases h0 : n.ip.length = 16
  · by_cases h1 : n.mask.length = 4
    · simp [networkNumberAndMask, h, maskSwitch, h0, h1]
    · by_cases h2 : n.mask.length = 16
      · simp [networkNumberAndMask, h, maskSwitch, h0, h1, h2]
      · simp [networkNumberAndMask, h, maskSwitch, h0, h1, h2]
  · simp [networkNumberAndMask, h, h0]

theorem C4_amended_no_cross_family_match (n : IPNet) (s : String) (ip : IP)
    (hp : ParseIP s = some ip) :
    (to4 ip = none → n.ip.length = 4 → Contains n ip = false)
    ∧ (to4 n.ip = none → (to4 ip).isSome = true → Contains n ip = false) := by
  have hip16 : ip.length = 16 := ParseIP_length s ip hp
  constructor
  · intro h4 hn4
    refine contains_false_of_len_ne n ip ?_
    simp only [h4]
    rcases nnm_fst_length_of_ip4 n hn4 with hl | hl <;> omega
  · intro hn4 h4
    obtain ⟨x, hx⟩ := Option.isSome_iff_exists.mp h4
    have hx4 : x.length = 4 := to4_some_length ip x hx
    refine contains_false_of_len_ne n ip ?_
    simp only [hx]
    rcases nnm_fst_length_of_to4_none n hn4 with hl | hl <;> omega

/-- Witness for C4 amended: the IPv4 address `1.2.3.4` does not match the
IPv6 prefix built from `2001:db8::/32`. -/
theorem C4_amended_witness :
    Contains ⟨[32, 1, 13, 184, 0, 0, 0, 0, 0, 0, 0, 0, 0, 0, 0, 0],
        [255, 255, 255, 255, 0, 0, 0, 0, 0, 0, 0, 0, 0, 0, 0, 0]⟩
      (v4mapped [1, 2, 3, 4]) = false :=
  (C4_amended_no_cross_family_match
    ⟨[32, 1, 13, 184, 0, 0, 0, 0, 0, 0, 0, 0, 0, 0, 0, 0],
      [255, 255, 255, 255, 0, 0, 0, 0, 0, 0, 0, 0, 0, 0, 0, 0]⟩
    "1.2.3.4" (v4mapped [1, 2, 3, 4]) (by decide)).2 (by decide) (by decide)

/-! ### Trimming lemmas -/

theorem dropWhile_head_not (p : Char → Bool) (l : List Char) :
    l.dropWhile p = [] ∨ ∃ c t, l.dropWhile p = c :: t ∧ p c = false := by
  induction l with
  | nil => exact Or.inl rfl
  | cons c rest ih =>
    by_cases hc : p c
    · simpa [List.dropWhile_cons, hc] using ih
    · right
      exact ⟨c, rest, by simp [List.dropWhile_cons, hc], by simpa using hc⟩

theorem head_not_of_dropWhile_self (p : Char → Bool) (x : List Char)
    (hself : x.dropWhile p = x) (hne : x ≠ []) :
    ∃ c t, x = c :: t ∧ p c = false := by
  rcases dropWhile_head_not p x with h0 | ⟨c, t, he, hc⟩
  · rw [hself] at h0
    exact absurd h0 hne
  · rw [hself] at he
    exact ⟨c, t, he, hc⟩

theorem dropWhile_self_of_lead (p : Char → Bool) (l t : List Char)
    (h : t <+: l) (hl : l.dropWhile p = l) : t.dropWhile p = t := by
  match t with
  | [] => rfl
  | c :: t' =>
    obtain ⟨u, hu⟩ := h
    have hc : p c = false := by
      rcases head_not_of_dropWhile_self p l hl (by rw [← hu]; simp) with ⟨c', t'', he, hc'⟩
      rw [← hu] at he
      cases he
      exact hc'
    simp [List.dropWhile_cons, hc]

theorem dropWhile_trimSpace_self (l : List Char) :
    (trimSpace l).dropWhile isSpaceChar = trimSpace l := by
  have hd1 : (l.dropWhile isSpaceChar).dropWhile isSpaceChar = l.dropWhile isSpaceChar := by
    rcases dropWhile_head_not isSpaceChar l with h0 | ⟨c, t, he, hc⟩
    · rw [h0]
      rfl
    · rw [he]
      simp [List.dropWhile_cons, hc]
  have hpre : trimSpace l <+: l.dropWhile isSpaceChar := by
    unfold trimSpace
    have hsfx : ((l.dropWhile isSpaceChar).reverse.dropWhile isSpaceChar)
        <:+ (l.dropWhile isSpaceChar).reverse := List.dropWhile_suffix _
    have h2 := List.IsSuffix.reverse hsfx
    simpa using h2
  exact dropWhile_self_of_lead isSpaceChar _ _ hpre hd1

theorem trimSpace_trimmed_append (l sfx : List Char)
    (hne : trimSpace l ≠ [])
    (hsfx : ∃ c t, sfx.reverse = c :: t ∧ isSpaceChar c = false) :
    trimSpace (trimSpace l ++ sfx) = trimSpace l ++ sfx := by
  obtain ⟨c0, t0, he0, hc0⟩ :=
    head_not_of_dropWhile_self isSpaceChar (trimSpace l) (dropWhile_trimSpace_self l) hne
  obtain ⟨c1, t1, he1, hc1⟩ := hsfx
  show ((((trimSpace l ++ sfx).dropWhile isSpaceChar).reverse).dropWhile isSpaceChar).reverse
      = trimSpace l ++ sfx
  have h1 : (trimSpace l ++ sfx).dropWhile isSpaceChar = trimSpace l ++ sfx := by
    rw [he0]
    simp [List.dropWhile_cons, hc0]
  rw [h1, List.reverse_append, he1]
  simp only [List.cons_append, List.dropWhile_cons, hc1, Bool.false_eq_true, if_false,
    List.reverse_cons, List.reverse_append, List.reverse_reverse]
  have h3 := congrArg List.reverse he1
  simp only [List.reverse_reverse, List.reverse_cons] at h3
  rw [h3]
  simp

/-! ### Construction congruence -/

theorem checker_allow_entry_congr (pre post d : List String) (e e' : String)
    (h : entryToNet e = entryToNet e') :
    NewIPAccessChecker (pre ++ [e] ++ post) d = NewIPAccessChecker (pre ++ [e'] ++ post) d := by
  simp only [NewIPAccessChecker, List.filterMap_append, List.filterMap_cons, h]

theorem checker_deny_entry_congr (a pre post : List String) (e e' : String)
    (h : entryToNet e = entryToNet e') :
    NewIPAccessChecker a (pre ++ [e] ++ post) = NewIPAccessChecker a (pre ++ [e'] ++ post) := by
  simp only [NewIPAccessChecker, List.filterMap_append, List.filterMap_cons, h]

/-! ### C5: bare addresses versus explicit prefixes -/

/-- The suffix `NewIPAccessChecker` appends to a bare address entry: `/32`
when the parsed address has a 4-byte `To4` form, `/128` otherwise. -/
def bareSuffix (ip : IP) : List Char :=
  if (to4 ip).isSome then ['/', '3', '2'] else ['/', '1', '2', '8']

theorem goParseIP_nil : goParseIP [] = none := rfl

theorem entryToNet_eq_of_bare (e : String) (ip : IP)
    (hnoslash : (trimSpace e.data).contains '/' = false)
    (hp : goParseIP (trimSpace e.data) = some ip) :
    entryToNet e = goParseCIDR (trimSpace e.data ++ bareSuffix ip) := by
  have hne : trimSpace e.data ≠ [] := by
    intro h
    rw [h, goParseIP_nil] at hp
    cases hp
  have hmem : ¬('/' ∈ trimSpace e.data) := by
    simpa using hnoslash
  by_cases h4 : (to4 ip).isSome = true <;>
    simp [entryToNet, hne, hnoslash, hp, bareSuffix, h4, hmem]

theorem entryToNet_eq_of_suffixed (e : String) (ip : IP)
    (hp : goParseIP (trimSpace e.data) = some ip) :
    entryToNet (String.mk (trimSpace e.data ++ bareSuffix ip))
      = goParseCIDR (trimSpace e.data ++ bareSuffix ip) := by
  have hne : trimSpace e.data ≠ [] := by
    intro h
    rw [h, goParseIP_nil] at hp
    cases hp
  have htrim : trimSpace (trimSpace e.data ++ bareSuffix ip)
      = trimSpace e.data ++ bareSuffix ip := by
    refine trimSpace_trimmed_append _ _ hne ?_
    by_cases h4 : (to4 ip).isSome = true <;> simp [bareSuffix, h4] <;> decide
  have hmem2 : '/' ∈ trimSpace e.data ++ bareSuffix ip := by
    by_cases h4 : (to4 ip).isSome = true <;> simp [bareSuffix, h4]
  have hne2 : trimSpace e.data ++ bareSuffix ip ≠ [] := by
    simp [hne]
  have hdata : (String.mk (trimSpace e.data ++ bareSuffix ip)).data
      = trimSpace e.data ++ bareSuffix ip := rfl
  simp [entryToNet, hdata, htrim, hne2, hmem2]

/-- C5 counterexample: the entry `::ffff:1.2.3.4` is an IPv6 address (colon
form), yet its `To4` form is non-nil, so construction appends `/32` — not
`/128` — and the two checkers differ: `::ffff:1.2.3.4/32` parses to the
network `::/32`-of-128, which as a deny rule rejects `::1`, while the
`/128` form does not. -/
theorem C5_counterexample :
    entryToNet "::ffff:1.2.3.4" = goParseCIDR ("::ffff:1.2.3.4/32").data ∧
    IsAllowed (some (NewIPAccessChecker [] ["::ffff:1.2.3.4"])) "::1" = false ∧
    IsAllowed (some (NewIPAccessChecker [] ["::ffff:1.2.3.4/128"])) "::1" = true :=
  ⟨by decide, by decide, by decide⟩

/-- C5 amended: a bare entry (no slash) that parses as an IP address is
widened with `/32` exactly when the parsed address has a 4-byte `To4` form
(IPv4 dotted text, but also v4-mapped IPv6 text such as `::ffff:1.2.3.4`)
and with `/128` otherwise; with that classification the checker built from
the bare entry is identical, on every query and in either list, to the one
built from the suffixed entry in the same position. -/
theorem C5_amended_bare_entry_equiv (e : String) (ip : IP)
    (hnoslash : (trimSpace e.data).contains '/' = false)
    (hp : goParseIP (trimSpace e.data) = some ip) :
    entryToNet e = entryToNet (String.mk (trimSpace e.data ++ bareSuffix ip))
    ∧ (∀ (pre post d : List String) (q : String),
        IsAllowed (some (NewIPAccessChecker (pre ++ [e] ++ post) d)) q
          = IsAllowed (some (NewIPAccessChecker
              (pre ++ [String.mk (trimSpace e.data ++ bareSuffix ip)] ++ post) d)) q)
    ∧ (∀ (a pre post : List String) (q : String),
        IsAllowed (some (NewIPAccessChecker a (pre ++ [e] ++ post))) q
          = IsAllowed (some (NewIPAccessChecker a
              (pre ++ [String.mk (trimSpace e.data ++ bareSuffix ip)] ++ post))) q) := by
  have he : entryToNet e = entryToNet (String.mk (trimSpace e.data ++ bareSuffix ip)) :=
    (entryToNet_eq_of_bare e ip hnoslash hp).trans
      (entryToNet_eq_of_suffixed e ip hp).symm
  refine ⟨he, ?_, ?_⟩
  · intro pre post d q
    rw [checker_allow_entry_congr pre post d _ _ he]
  · intro a pre post q
    rw [checker_deny_entry_congr a pre post _ _ he]

/-- Witness for C5 amended at the spec's own example `203.0.113.5`, whose
suffix evaluates to `/32`. -/
theorem C5_amended_witness :
    IsAllowed (some (NewIPAccessChecker ([] ++ ["203.0.113.5"] ++ []) [])) "203.0.113.5"
      = IsAllowed (some (NewIPAccessChecker
          ([] ++ [String.mk (trimSpace "203.0.113.5".data
              ++ bareSuffix (v4mapped [203, 0, 113, 5]))] ++ []) [])) "203.0.113.5" :=
  (C5_amended_bare_entry_equiv "203.0.113.5" (v4mapped [203, 0, 113, 5])
    (by decide) (by decide)).2.1 [] [] [] "203.0.113.5"

/-! ### C6: lenient construction -/

theorem dropWhile_idem (p : Char → Bool) (l : List Char) :
    (l.dropWhile p).dropWhile p = l.dropWhile p := by
  rcases dropWhile_head_not p l with h0 | ⟨c, t, he, hc⟩
  · rw [h0]
    rfl
  · rw [he]
    simp [List.dropWhile_cons, hc]

theorem trimSpace_idem (l : List Char) : trimSpace (trimSpace l) = trimSpace l := by
  show ((((trimSpace l).dropWhile isSpaceChar).reverse).dropWhile isSpaceChar).reverse
      = trimSpace l
  rw [dropWhile_trimSpace_self]
  have h2 : (trimSpace l).reverse.dropWhile isSpaceChar = (trimSpace l).reverse := by
    show ((((l.dropWhile isSpaceChar).reverse.dropWhile isSpaceChar).reverse).reverse).dropWhile
        isSpaceChar = _
    rw [List.reverse_reverse, dropWhile_idem]
    simp [trimSpace]
  rw [h2, List.reverse_reverse]

/-- C6: construction is total and lenient: every entry is trimmed before
interpretation (an entry parses exactly as its trimmed form does), entries
empty after trimming produce no rule, entries producing no rule are absent
from the effective rule set (the checker equals the one built without them),
and each configured flag — and through them `HasRules` — is true exactly
when at least one entry of its list produced a rule. -/
theorem C6_lenient_construction (a d : List String) :
    (∀ e : String, entryToNet e = entryToNet (String.mk (trimSpace e.data)))
    ∧ (∀ e : String, trimSpace e.data = [] → entryToNet e = none)
    ∧ (∀ (pre post : List String) (e : String), entryToNet e = none →
        NewIPAccessChecker (pre ++ [e] ++ post) d = NewIPAccessChecker (pre ++ post) d
        ∧ NewIPAccessChecker a (pre ++ [e] ++ post) = NewIPAccessChecker a (pre ++ post))
    ∧ ((NewIPAccessChecker a d).hasAllow = true ↔ ∃ e ∈ a, entryToNet e ≠ none)
    ∧ ((NewIPAccessChecker a d).hasDeny = true ↔ ∃ e ∈ d, entryToNet e ≠ none)
    ∧ HasRules (some (NewIPAccessChecker a d))
        = ((NewIPAccessChecker a d).hasAllow || (NewIPAccessChecker a d).hasDeny) := by
  refine ⟨?_, ?_, ?_, ?_, ?_, rfl⟩
  · intro e
    simp only [entryToNet, show (String.mk (trimSpace e.data)).data = trimSpace e.data from rfl,
      trimSpace_idem]
  · intro e h
    simp [entryToNet, h]
  · intro pre post e h
    constructor <;>
      simp only [NewIPAccessChecker, List.filterMap_append, List.filterMap_cons, h,
        List.filterMap_nil, List.nil_append, List.append_nil]
  · rw [hasAllow_iff, allowNets_eq]
    simp [List.filterMap_eq_nil_iff]
  · rw [hasDeny_iff, denyNets_eq]
    simp [List.filterMap_eq_nil_iff]

/-- Witness for C6: the unparsable entry `bogus` is dropped, leaving the
checker built without it. -/
theorem C6_witness :
    NewIPAccessChecker (["10.0.0.0/8"] ++ ["bogus"] ++ []) ["1.2.3.4"]
      = NewIPAccessChecker (["10.0.0.0/8"] ++ []) ["1.2.3.4"] :=
  ((C6_lenient_construction ["10.0.0.0/8"] ["1.2.3.4"]).2.2.1 ["10.0.0.0/8"] [] "bogus"
    (by decide)).1

/-! ### C10: host bits below the prefix length are masked away -/

theorem cidrMaskLoop_length : ∀ (l n : Nat), (cidrMaskLoop l n).length = l := by
  intro l
  induction l with
  | zero => intro n; rfl
  | succ l ih =>
    intro n
    by_cases h8 : 8 ≤ n <;> simp [cidrMaskLoop, h8, ih]

theorem land_self_eq (b : Nat) : b &&& b = b := by
  apply Nat.eq_of_testBit_eq
  intro i
  simp [Nat.testBit_land]

theorem zipWith_land_idem : ∀ (x y : List Nat),
    List.zipWith (fun a b => a &&& b) (List.zipWith (fun a b => a &&& b) x y) y
      = List.zipWith (fun a b => a &&& b) x y := by
  intro x
  induction x with
  | nil => intro y; rfl
  | cons a x ih =>
    intro y
    cases y with
    | nil => rfl
    | cons b y =>
      simp only [List.zipWith_cons_cons, ih]
      rw [Nat.land_assoc, land_self_eq]

theorem maskBytes_v4 (fields m : List Nat) (hf : fields.length = 4) (hm : m.length = 4) :
    maskBytes (v4mapped fields) m = List.zipWith (fun a b => a &&& b) fields m := by
  have hlen : (v4mapped fields).length = 16 := by
    simp [v4mapped, hf]
  have htake : (v4mapped fields).take 12 = List.replicate 10 0 ++ [255, 255] := by
    show ((List.replicate 10 0 ++ [255, 255]) ++ fields).take 12 = _
    rw [List.take_left' (by simp)]
  have hdrop : (v4mapped fields).drop 12 = fields := by
    show ((List.replicate 10 0 ++ [255, 255]) ++ fields).drop 12 = _
    rw [List.drop_left' (by simp)]
  simp [maskBytes, hlen, hm, htake, hdrop, hf]

theorem maskBytes_16 (ip m : List Nat) (hip : ip.length = 16) (hm : m.length = 16) :
    maskBytes ip m = List.zipWith (fun a b => a &&& b) ip m := by
  simp [maskBytes, hip, hm]

theorem cidrMask_length (ones bits : Nat) (hb : bits = 32 ∨ bits = 128) (hle : ones ≤ bits) :
    (cidrMask ones bits).length = bits / 8 := by
  rcases hb with h | h <;> subst h <;> simp [cidrMask, hle, cidrMaskLoop_length]

theorem goParseCIDR_masked (s : List Char) (net : IPNet) (h : goParseCIDR s = some net) :
    net.ip = List.zipWith (fun a b => a &&& b) net.ip net.mask := by
  simp only [goParseCIDR] at h
  split at h
  · exact absurd h (by simp)
  · rename_i addr maskTxt heq
    cases hd : goParseDotted addr with
    | some fields =>
      have hf : fields.length = 4 := by
        simp only [goParseDotted] at hd
        split at hd
        · exact parseIPv4Fields_length addr 0 0 [] fields (by simp) hd
        · exact absurd hd (by simp)
      simp only [hd] at h
      split at h
      · exact absurd h (by simp)
      · rename_i hcond
        simp only [Bool.or_eq_true, decide_eq_true_eq, not_or, Bool.not_eq_false] at hcond
        have hones : (dtoi maskTxt).1 ≤ 32 := by omega
        have hm : (cidrMask (dtoi maskTxt).1 (8 * 4)).length = 4 := by
          rw [show 8 * 4 = 32 from rfl, cidrMask_length _ 32 (Or.inl rfl) hones]
        cases h
        simp only
        rw [maskBytes_v4 fields _ hf hm, zipWith_land_idem]
    | none =>
      simp only [hd] at h
      cases hp : goParseIP addr with
      | none =>
        simp only [hp] at h
        exact absurd h (by simp)
      | some bytes =>
        have hb : bytes.length = 16 := goParseIP_length addr bytes hp
        simp only [hp] at h
        split at h
        · exact absurd h (by simp)
        · rename_i hcond
          simp only [Bool.or_eq_true, decide_eq_true_eq, not_or, Bool.not_eq_false] at hcond
          have hones : (dtoi maskTxt).1 ≤ 128 := by omega
          have hm : (cidrMask (dtoi maskTxt).1 (8 * 16)).length = 16 := by
            rw [show 8 * 16 = 128 from rfl, cidrMask_length _ 128 (Or.inr rfl) hones]
          cases h
          simp only
          rw [maskBytes_16 bytes _ hb hm, zipWith_land_idem]

/-- C10: a prefix entry with host bits set below the prefix length is
accepted and stored as the masked network (re-masking the stored network
number is the identity), and since checkers built from entries with equal
parses are interchangeable everywhere, `10.1.2.3/8` behaves exactly as the
canonical `10.0.0.0/8` in either list, on every query. -/
theorem C10_masked_network_storage :
    (∀ (s : List Char) (net : IPNet), goParseCIDR s = some net →
        net.ip = List.zipWith (fun a b => a &&& b) net.ip net.mask)
    ∧ entryToNet "10.1.2.3/8" = entryToNet "10.0.0.0/8"
    ∧ (∀ (pre post d : List String) (e e' : String), entryToNet e = entryToNet e' →
        ∀ q : String, IsAllowed (some (NewIPAccessChecker (pre ++ [e] ++ post) d)) q
          = IsAllowed (some (NewIPAccessChecker (pre ++ [e'] ++ post) d)) q)
    ∧ (∀ (a pre post : List String) (e e' : String), entryToNet e = entryToNet e' →
        ∀ q : String, IsAllowed (some (NewIPAccessChecker a (pre ++ [e] ++ post))) q
          = IsAllowed (some (NewIPAccessChecker a (pre ++ [e'] ++ post))) q) := by
  refine ⟨goParseCIDR_masked, by decide, ?_, ?_⟩
  · intro pre post d e e' h q
    rw [checker_allow_entry_congr pre post d _ _ h]
  · intro a pre post e e' h q
    rw [checker_deny_entry_congr a pre post _ _ h]

/-- Witness for C10: the non-canonical allow entry `10.1.2.3/8` decides the
query `10.200.0.1` exactly as the canonical `10.0.0.0/8` does. -/
theorem C10_witness :
    IsAllowed (some (NewIPAccessChecker ([] ++ ["10.1.2.3/8"] ++ []) [])) "10.200.0.1"
      = IsAllowed (some (NewIPAccessChecker ([] ++ ["10.0.0.0/8"] ++ []) [])) "10.200.0.1" :=
  C10_masked_network_storage.2.2.1 [] [] [] "10.1.2.3/8" "10.0.0.0/8" (by decide) "10.200.0.1"

/-- C8: a nil checker behaves as the no-rules state: `IsAllowed` is true on
every input and `HasRules` is false, and both calls are total. -/
theorem C8_nil_checker_allows_all :
    (∀ s : String, IsAllowed none s = true) ∧ HasRules none = false :=
  ⟨fun _ => rfl, rfl⟩

/-! ### C7 and C9: address extraction -/

theorem parseIPv4Fields_chars :
    ∀ (s : List Char) (val digLen : Nat) (fields r : List Nat),
      parseIPv4Fields s val digLen fields = some r →
      ∀ c ∈ s, isDigit c = true ∨ c = '.' := by
  intro s
  induction s with
  | nil =>
    intro val digLen fields r _ c hc
    simp at hc
  | cons c0 rest ih =>
    intro val digLen fields r h c hc
    simp only [parseIPv4Fields] at h
    rcases List.mem_cons.mp hc with hc0 | hcr
    · subst hc0
      split at h
      · exact Or.inl (by assumption)
      · split at h
        · exact Or.inr (by assumption)
        · exact absurd h (by simp)
    · split at h
      · split at h
        · exact absurd h (by simp)
        · split at h
          · exact absurd h (by simp)
          · exact ih _ _ _ _ h c hcr
      · split at h
        · split at h
          · exact absurd h (by simp)
          · split at h
            · exact absurd h (by simp)
            · exact ih _ _ _ _ h c hcr
        · exact absurd h (by simp)

theorem scanHexGroup_colons :
    ∀ (s : List Char) (a o v off : Nat) (rest : List Char),
      scanHexGroup s a o = some (v, off, rest) → s.count ':' = rest.count ':' := by
  intro s
  induction s with
  | nil =>
    intro a o v off rest h
    cases h
    rfl
  | cons c t ih =>
    intro a o v off rest h
    simp only [scanHexGroup] at h
    cases hx : hexDigit c with
    | none =>
      simp only [hx] at h
      cases h
      rfl
    | some d =>
      simp only [hx] at h
      split at h
      · exact absurd h (by simp)
      · have hcc : c ≠ ':' := by
          intro he
          rw [he, show hexDigit ':' = none from rfl] at hx
          cases hx
        rw [List.count_cons]
        simp only [beq_iff_eq, hcc, if_false]
        exact ih _ _ _ _ _ h

theorem v6finish_none_length (acc : List Nat) (rem : List Char) (r : IP)
    (h : v6finish acc none rem = some r) : 16 ≤ acc.length := by
  simp only [v6finish] at h
  split at h
  · exact absurd h (by simp)
  · split at h
    · exact absurd h (by simp)
    · omega

theorem parseIPv6Loop_colons :
    ∀ (fuel : Nat) (rem : List Char) (acc : List Nat) (r : IP),
      parseIPv6Loop fuel rem acc none = some r →
      min 2 ((12 - acc.length) / 2) ≤ rem.count ':' := by
  intro fuel
  induction fuel with
  | zero =>
    intro rem acc r h
    have := v6finish_none_length acc rem r h
    omega
  | succ fuel ih =>
    intro rem acc r h
    simp only [parseIPv6Loop] at h
    split at h
    · rename_i h16
      have := v6finish_none_length acc rem r h
      omega
    · rename_i h16
      split at h
      · exact absurd h (by simp)
      · rename_i val off rest hscan
        have hcnt : rem.count ':' = rest.count ':' :=
          scanHexGroup_colons rem 0 0 val off rest hscan
        split at h
        · exact absurd h (by simp)
        · split at h
          · -- embedded IPv4 tail: requires acc.length = 12 when no ellipsis was seen
            split at h
            · exact absurd h (by simp)
            · rename_i h12
              simp only [Bool.and_eq_true, decide_eq_true_eq, not_and, Bool.not_eq_true] at h12
              have hlen12 : acc.length = 12 := by
                by_contra hne
                simp [hne] at h12
              omega
          · -- a hex group was appended
            split at h
            · -- rest = []
              have := v6finish_none_length _ _ _ h
              simp only [List.length_append, List.length_cons, List.length_nil] at this
              omega
            · -- rest = ':' :: rest2
              rename_i rest2
              split at h
              · exact absurd h (by simp)
              · -- rest2 = ':' :: rest3 : the ellipsis, two colons sit in rest
                rename_i rest3
                rw [hcnt]
                simp [List.count_cons]
              · -- rest2 starts with something else: one colon consumed, recurse
                rename_i hr2
                have hih := ih _ _ _ h
                rw [hcnt]
                rw [List.count_cons]
                simp only [beq_self_eq_true, if_true]
                simp only [List.length_append, List.length_cons, List.length_nil] at hih
                omega
            · exact absurd h (by simp)

theorem parseIPv6_colons (s : List Char) (r : IP) (h : parseIPv6 s = some r) :
    2 ≤ s.count ':' := by
  simp only [parseIPv6] at h
  split at h
  · exact absurd h (by simp)
  · split at h
    · simp [List.count_cons]
    · have h2 := parseIPv6Loop_colons 8 _ [] r h
      simp only [List.length_nil] at h2
      omega

theorem goParseIP_bracket (t : List Char) : goParseIP ('[' :: t) = none := by
  cases hfs : firstSpecial ('[' :: t) with
  | none => simp [goParseIP, hfs]
  | some c =>
    simp only [goParseIP, hfs]
    split
    · simp [parseIPv4Fields, isDigit]
    · simp only [parseIPv6]
      split
      · rfl
      · split
        · rename_i heq
          exact absurd heq (by simp)
        · simp [parseIPv6Loop, scanHexGroup, hexDigit]
    · rfl

theorem lastColon_none : ∀ l : List Char, lastColon l = none → ':' ∉ l := by
  intro l
  induction l with
  | nil =>
    intro _
    simp
  | cons c rest ih =>
    intro h
    simp only [lastColon] at h
    split at h
    · exact absurd h (by simp)
    · rename_i hnone
      split at h
      · exact absurd h (by simp)
      · rename_i hc
        simp only [List.mem_cons, not_or]
        exact ⟨fun he => hc he.symm, ih hnone⟩

theorem lastColon_decomp : ∀ (l : List Char) (i : Nat), lastColon l = some i →
    ∃ t u, l = t ++ ':' :: u ∧ t.length = i ∧ ':' ∉ u := by
  intro l
  induction l with
  | nil =>
    intro i h
    exact absurd h (by simp [lastColon])
  | cons c rest ih =>
    intro i h
    simp only [lastColon] at h
    cases hrest : lastColon rest with
    | some j =>
      simp only [hrest] at h
      cases h
      obtain ⟨t, u, he, hl, hu⟩ := ih j hrest
      exact ⟨c :: t, u, by rw [List.cons_append, ← he], by simp [hl], hu⟩
    | none =>
      simp only [hrest] at h
      split at h
      · rename_i hc
        cases h
        exact ⟨[], rest, by rw [hc, List.nil_append], rfl, lastColon_none rest hrest⟩
      · exact absurd h (by simp)

theorem splitHostPort_one_colon (l host port : List Char)
    (h : SplitHostPort l = some (host, port)) (hb : ¬(l.head? = some '[')) :
    l.count ':' = 1 := by
  simp only [SplitHostPort] at h
  cases hlc : lastColon l with
  | none =>
    simp only [hlc] at h
    exact absurd h (by simp)
  | some i =>
    simp only [hlc] at h
    rw [if_neg hb] at h
    split at h
    · exact absurd h (by simp)
    · rename_i hctake
      split at h
      · exact absurd h (by simp)
      · split at h
        · exact absurd h (by simp)
        · obtain ⟨t, u, he, hlen, hu⟩ := lastColon_decomp l i hlc
          have htake : l.take i = t := by
            rw [he, ← hlen, List.take_left]
          rw [htake] at hctake
          have ht0 : t.count ':' = 0 := by
            rw [List.count_eq_zero]
            intro hmem
            exact hctake (by simpa [List.contains_eq_any_beq] using hmem)
          have hu0 : u.count ':' = 0 := List.count_eq_zero.mpr hu
          rw [he]
          simp [List.count_cons, ht0, hu0]

theorem goParseIP_none_of_split (l host port : List Char)
    (h : SplitHostPort l = some (host, port)) : goParseIP l = none := by
  by_cases hb : l.head? = some '['
  · obtain ⟨t, ht⟩ : ∃ t, l = '[' :: t := by
      cases l with
      | nil => simp at hb
      | cons c rest =>
        simp only [List.head?_cons, Option.some_inj] at hb
        exact ⟨rest, by rw [hb]⟩
    rw [ht]
    exact goParseIP_bracket t
  · have hcnt := splitHostPort_one_colon l host port h hb
    have hmem : ':' ∈ l := List.count_pos_iff.mp (by omega)
    cases hfs : firstSpecial l with
    | none => simp [goParseIP, hfs]
    | some c =>
      simp only [goParseIP, hfs]
      split
      · cases hf : parseIPv4Fields l 0 0 [] with
        | none => rfl
        | some r =>
          exfalso
          rcases parseIPv4Fields_chars l 0 0 [] r hf ':' hmem with hd | hd
          · exact absurd hd (by decide)
          · exact absurd hd (by decide)
      · cases hv : parseIPv6 l with
        | none => rfl
        | some r =>
          exfalso
          have := parseIPv6_colons l r hv
          omega
      · rfl

/-- C9: when a raw address splits as host and port, `ExtractIP` returns the
host part unconditionally — no IP-validity check is applied to it (for
instance `example.com:8080` yields `example.com`, which is not an IP
address); the validity check only runs on inputs that fail to split. -/
theorem C9_split_wins_over_validity :
    (∀ (s : String) (host port : List Char), SplitHostPort s.data = some (host, port) →
        ExtractIP s = String.mk host)
    ∧ ExtractIP "example.com:8080" = "example.com"
    ∧ ParseIP "example.com" = none := by
  refine ⟨?_, by decide, by decide⟩
  intro s host port h
  simp [ExtractIP, h]

/-- Witness for C9 at `foo:bar`: the host `foo` is returned although it is
no IP address. -/
theorem C9_witness :
    ExtractIP "foo:bar" = String.mk ['f', 'o', 'o'] :=
  C9_split_wins_over_validity.1 "foo:bar" ['f', 'o', 'o'] ['b', 'a', 'r'] (by decide)

/-- C7: `ExtractIP` returns the host part when the input splits as
host:port (including bracketed IPv6); returns the input unchanged when it
is itself a syntactically valid IP address (such a string never splits:
a valid address has zero colons or at least two, while an unbracketed
split needs exactly one, and a bracket makes the parse fail); and returns
the empty string otherwise; it is a total function, so no error is ever
raised. -/
theorem C7_extract_ip (s : String) :
    (∀ host port : List Char, SplitHostPort s.data = some (host, port) →
        ExtractIP s = String.mk host)
    ∧ ((ParseIP s).isSome = true → ExtractIP s = s)
    ∧ (SplitHostPort s.data = none → ParseIP s = none → ExtractIP s = "")
    ∧ ExtractIP "198.51.100.7:8443" = "198.51.100.7"
    ∧ ExtractIP "198.51.100.7" = "198.51.100.7"
    ∧ ExtractIP "not-an-address" = "" := by
  refine ⟨?_, ?_, ?_, by decide, by decide, by decide⟩
  · intro host port h
    simp [ExtractIP, h]
  · intro h
    cases hsp : SplitHostPort s.data with
    | some pr =>
      exfalso
      obtain ⟨host, port⟩ := pr
      have hnone := goParseIP_none_of_split s.data host port hsp
      rw [show ParseIP s = goParseIP s.data from rfl, hnone] at h
      simp at h
    | none =>
      simp [ExtractIP, hsp, h]
  · intro h1 h2
    simp [ExtractIP, h1, h2]

/-- Witness for C7: a bracketed IPv6 peer address is split, and a bare
IPv6 address is returned unchanged. -/
theorem C7_witness :
    ExtractIP "[::1]:443" = String.mk [':', ':', '1'] ∧ ExtractIP "::1" = "::1" :=
  ⟨(C7_extract_ip "[::1]:443").1 [':', ':', '1'] ['4', '4', '3'] (by decide),
    (C7_extract_ip "::1").2.1 (by decide)⟩

end Netutil
